import Mathlib

/-!
Verification of the scout repository's SSRF guard, safe fetcher and research
orchestrator against their natural-language specification.  The Rust sources
under src/ are shallowly embedded: machine integers become Nat, fallible code
returns Except, and the asynchronous capabilities (DNS resolver, HTTP
transport, search provider, RNG) become explicit function parameters so that
the sequential logic of each function is preserved exactly.
-/

/-- An IPv4 address as its four octets (Rust std::net::Ipv4Addr, octets view). -/
structure Ipv4 where
  o0 : Nat
  o1 : Nat
  o2 : Nat
  o3 : Nat
deriving DecidableEq, Repr

/-- An IPv6 address as its eight 16-bit segments (Rust std::net::Ipv6Addr, segments view). -/
structure Ipv6 where
  s0 : Nat
  s1 : Nat
  s2 : Nat
  s3 : Nat
  s4 : Nat
  s5 : Nat
  s6 : Nat
  s7 : Nat
deriving DecidableEq, Repr

/-- Rust std::net::IpAddr. -/
inductive IpAddr where
  | V4 (v4 : Ipv4)
  | V6 (v6 : Ipv6)
deriving DecidableEq, Repr

/-- Rust Ipv4Addr::is_loopback: 127.0.0.0/8. -/
def Ipv4.is_loopback (v : Ipv4) : Bool := v.o0 == 127

/-- Rust Ipv4Addr::is_private: 10.0.0.0/8, 172.16.0.0/12, 192.168.0.0/16. -/
def Ipv4.is_private (v : Ipv4) : Bool :=
  v.o0 == 10
    || (v.o0 == 172 && decide (16 ≤ v.o1 ∧ v.o1 ≤ 31))
    || (v.o0 == 192 && v.o1 == 168)

/-- Rust Ipv4Addr::is_link_local: 169.254.0.0/16. -/
def Ipv4.is_link_local (v : Ipv4) : Bool := v.o0 == 169 && v.o1 == 254

/-- Rust Ipv4Addr::is_unspecified: 0.0.0.0. -/
def Ipv4.is_unspecified (v : Ipv4) : Bool :=
  v.o0 == 0 && v.o1 == 0 && v.o2 == 0 && v.o3 == 0

/-- Rust Ipv4Addr::is_broadcast: 255.255.255.255. -/
def Ipv4.is_broadcast (v : Ipv4) : Bool :=
  v.o0 == 255 && v.o1 == 255 && v.o2 == 255 && v.o3 == 255

/-- Rust Ipv6Addr::is_loopback: ::1. -/
def Ipv6.is_loopback (v : Ipv6) : Bool :=
  v.s0 == 0 && v.s1 == 0 && v.s2 == 0 && v.s3 == 0
    && v.s4 == 0 && v.s5 == 0 && v.s6 == 0 && v.s7 == 1

/-- Rust Ipv6Addr::is_unspecified: ::. -/
def Ipv6.is_unspecified (v : Ipv6) : Bool :=
  v.s0 == 0 && v.s1 == 0 && v.s2 == 0 && v.s3 == 0
    && v.s4 == 0 && v.s5 == 0 && v.s6 == 0 && v.s7 == 0

/-- Rust Ipv6Addr::to_ipv4_mapped: Some for ::ffff:a.b.c.d only. -/
def Ipv6.to_ipv4_mapped (v : Ipv6) : Option Ipv4 :=
  if v.s0 = 0 ∧ v.s1 = 0 ∧ v.s2 = 0 ∧ v.s3 = 0 ∧ v.s4 = 0 ∧ v.s5 = 0xffff then
    some ⟨v.s6 / 256, v.s6 % 256, v.s7 / 256, v.s7 % 256⟩
  else
    none

/-- src/fetch/ssrf.rs is_cgn: 100.64.0.0/10 carrier-grade NAT. -/
def is_cgn (v : Ipv4) : Bool := v.o0 == 100 && decide (64 ≤ v.o1 ∧ v.o1 ≤ 127)

/-- src/fetch/ssrf.rs is_ipv6_link_local: segments()[0] & 0xffc0 == 0xfe80. -/
def is_ipv6_link_local (v : Ipv6) : Bool := (v.s0 &&& 0xffc0) == 0xfe80

/-- src/fetch/ssrf.rs is_ipv6_unique_local: segments()[0] & 0xfe00 == 0xfc00. -/
def is_ipv6_unique_local (v : Ipv6) : Bool := (v.s0 &&& 0xfe00) == 0xfc00

/-- The IPv4 branch of src/fetch/ssrf.rs is_private_ip. -/
def is_private_v4 (v4 : Ipv4) : Bool :=
  v4.is_loopback || v4.is_private || v4.is_link_local || v4.is_unspecified
    || (v4.o0 == 0) || v4.is_broadcast || is_cgn v4

/-- src/fetch/ssrf.rs is_private_ip.  The Rust IPv6 branch recurses into the
IPv4 branch on the mapped address; here that branch is the named helper. -/
def is_private_ip : IpAddr → Bool
  | .V4 v4 => is_private_v4 v4
  | .V6 v6 =>
      v6.is_loopback || v6.is_unspecified || is_ipv6_link_local v6
        || is_ipv6_unique_local v6
        || (v6.to_ipv4_mapped.map is_private_v4).getD false

/-- A URL host as parsed by the url crate (url::Host). -/
inductive Host where
  | v4 (a : Ipv4)
  | v6 (a : Ipv6)
  | domain (d : String)
deriving DecidableEq, Repr

/-- Rust char::to_ascii_lowercase on a single character. -/
def asciiLowerChar (c : Char) : Char :=
  if 65 ≤ c.toNat ∧ c.toNat ≤ 90 then Char.ofNat (c.toNat + 32) else c

/-- Rust str::to_ascii_lowercase. -/
def to_ascii_lowercase (s : String) : String :=
  String.mk (s.toList.map asciiLowerChar)

/-- Rust str::ends_with, via list suffix. -/
def ends_with (s suf : String) : Bool := suf.toList.isSuffixOf s.toList

/-- src/fetch/ssrf.rs is_blocked_host, over the parsed URL's optional host. -/
def is_blocked_host : Option Host → Bool
  | some (.v4 a) => is_private_ip (.V4 a)
  | some (.v6 a) => is_private_ip (.V6 a)
  | some (.domain d) =>
      let lower := to_ascii_lowercase d
      lower == "localhost"
        || ends_with lower ".localhost"
        || ends_with lower ".local"
        || ends_with lower ".internal"
        || ends_with lower ".arpa"
  | none => true

/-- Well-formedness of an IPv4 address: octets fit in 8 bits. -/
def Ipv4.Wf (v : Ipv4) : Bool :=
  decide (v.o0 < 256 ∧ v.o1 < 256 ∧ v.o2 < 256 ∧ v.o3 < 256)

/-- Well-formedness of an IPv6 address: segments fit in 16 bits. -/
def Ipv6.Wf (v : Ipv6) : Bool :=
  decide (v.s0 < 65536 ∧ v.s1 < 65536 ∧ v.s2 < 65536 ∧ v.s3 < 65536
    ∧ v.s4 < 65536 ∧ v.s5 < 65536 ∧ v.s6 < 65536 ∧ v.s7 < 65536)

/-- Well-formedness of a parsed host. -/
def Host.Wf : Host → Bool
  | .v4 a => a.Wf
  | .v6 a => a.Wf
  | .domain _ => true

theorem and_div_pow (a b k : Nat) : (a &&& b) / 2 ^ k = a / 2 ^ k &&& b / 2 ^ k := by
  induction k with
  | zero => simp
  | succ n ih =>
      rw [pow_succ, ← Nat.div_div_eq_div_mul, ih, Nat.and_div_two,
        Nat.div_div_eq_div_mul, Nat.div_div_eq_div_mul]

theorem and_mod_pow_zero (a b k : Nat) (hb : b % 2 ^ k = 0) : (a &&& b) % 2 ^ k = 0 := by
  have h1 : (a &&& b) % 2 ^ k = (a &&& b) &&& (2 ^ k - 1) := by
    rw [Nat.and_pow_two_sub_one_eq_mod]
  have h2 : b &&& (2 ^ k - 1) = 0 := by
    rw [Nat.and_pow_two_sub_one_eq_mod]; exact hb
  rw [h1, Nat.land_assoc, h2, Nat.and_zero]

theorem land_ffc0_val (s : Nat) : s &&& 0xffc0 = 64 * (s / 64 % 1024) := by
  have h1 : (s &&& 0xffc0) / 64 = s / 64 % 1024 := by
    have ha := and_div_pow s 0xffc0 6
    norm_num at ha
    have hb := Nat.and_pow_two_sub_one_eq_mod (s / 64) 10
    norm_num at hb
    rw [ha, hb]
  have h2 : (s &&& 0xffc0) % 64 = 0 := by
    have := and_mod_pow_zero s 0xffc0 6 (by norm_num)
    norm_num at this
    exact this
  omega

theorem land_fe00_val (s : Nat) : s &&& 0xfe00 = 512 * (s / 512 % 128) := by
  have h1 : (s &&& 0xfe00) / 512 = s / 512 % 128 := by
    have ha := and_div_pow s 0xfe00 9
    norm_num at ha
    have hb := Nat.and_pow_two_sub_one_eq_mod (s / 512) 7
    norm_num at hb
    rw [ha, hb]
  have h2 : (s &&& 0xfe00) % 512 = 0 := by
    have := and_mod_pow_zero s 0xfe00 9 (by norm_num)
    norm_num at this
    exact this
  omega

/-- Modelled from the claim wording: membership of an IPv4 address in the seven
ranges 127.0.0.0/8, 10.0.0.0/8, 172.16.0.0/12, 192.168.0.0/16, 169.254.0.0/16,
100.64.0.0/10, 0.0.0.0/8. -/
def c3_claim_v4 (v : Ipv4) : Bool :=
  v.o0 == 127
    || v.o0 == 10
    || (v.o0 == 172 && decide (16 ≤ v.o1 ∧ v.o1 ≤ 31))
    || (v.o0 == 192 && v.o1 == 168)
    || (v.o0 == 169 && v.o1 == 254)
    || (v.o0 == 100 && decide (64 ≤ v.o1 ∧ v.o1 ≤ 127))
    || v.o0 == 0

/-- The amended IPv4 policy set: the claim set plus the broadcast address
255.255.255.255, which the code also blocks. -/
def c3_amended_v4 (v : Ipv4) : Bool :=
  c3_claim_v4 v
    || (v.o0 == 255 && v.o1 == 255 && v.o2 == 255 && v.o3 == 255)

/-- Modelled from the claim wording, with the amended IPv4 set: an IPv6 address
is blocked iff it is ::1, ::, in fe80::/10 or fc00::/7 (CIDR intervals on the
leading segment), or an IPv4-mapped address ::ffff:a.b.c.d whose embedded IPv4
address is itself in the amended IPv4 policy set. -/
def c3_amended_v6 (v : Ipv6) : Bool :=
  (v.s0 == 0 && v.s1 == 0 && v.s2 == 0 && v.s3 == 0
      && v.s4 == 0 && v.s5 == 0 && v.s6 == 0 && v.s7 == 1)
    || (v.s0 == 0 && v.s1 == 0 && v.s2 == 0 && v.s3 == 0
      && v.s4 == 0 && v.s5 == 0 && v.s6 == 0 && v.s7 == 0)
    || decide (0xfe80 ≤ v.s0 ∧ v.s0 ≤ 0xfebf)
    || decide (0xfc00 ≤ v.s0 ∧ v.s0 ≤ 0xfdff)
    || (v.s0 == 0 && v.s1 == 0 && v.s2 == 0 && v.s3 == 0 && v.s4 == 0
      && v.s5 == 0xffff
      && c3_amended_v4 ⟨v.s6 / 256, v.s6 % 256, v.s7 / 256, v.s7 % 256⟩)

/-- Modelled from the claim wording: a domain, after ASCII lowercasing, is
blocked iff it equals localhost or is a subdomain of localhost, .local,
.internal or .arpa. -/
def c3_claim_domain (d : String) : Bool :=
  let lower := to_ascii_lowercase d
  lower == "localhost"
    || ends_with lower ".localhost"
    || ends_with lower ".local"
    || ends_with lower ".internal"
    || ends_with lower ".arpa"

/-- The amended static policy set over classified hosts. -/
def c3_amended_host : Host → Bool
  | .v4 a => c3_amended_v4 a
  | .v6 a => c3_amended_v6 a
  | .domain d => c3_claim_domain d

/-- C3 counterexample: the claim says the host classifier blocks IPv4 addresses
exactly when they lie in the seven listed ranges, but the code also blocks the
broadcast address 255.255.255.255, which lies in none of them. -/
theorem c3_counterexample_broadcast :
    is_blocked_host (some (.v4 ⟨255, 255, 255, 255⟩)) = true
      ∧ c3_claim_v4 ⟨255, 255, 255, 255⟩ = false := by
  decide

theorem bool_shuffle_v4 (p127 p10 p172 r16 p192 e168 p169 e254 z0 z1 z2 z3 b0 b1 b2 b3 p100 r64 : Bool) :
    (p127 || (p10 || (p172 && r16) || (p192 && e168)) || (p169 && e254)
        || (((z0 && z1) && z2) && z3) || z0 || (((b0 && b1) && b2) && b3) || (p100 && r64))
      = ((p127 || p10 || (p172 && r16) || (p192 && e168) || (p169 && e254)
        || (p100 && r64) || z0) || (((b0 && b1) && b2) && b3)) := by
  cases z0 <;> cases p127 <;> cases p10 <;> simp
  rw [Bool.or_right_comm]

/-- The IPv4 branch of the classifier computes exactly the amended policy set. -/
theorem is_private_v4_eq_amended (a : Ipv4) : is_private_v4 a = c3_amended_v4 a := by
  simp only [is_private_v4, Ipv4.is_loopback, Ipv4.is_private, Ipv4.is_link_local,
    Ipv4.is_unspecified, Ipv4.is_broadcast, is_cgn, c3_amended_v4, c3_claim_v4]
  exact bool_shuffle_v4 (a.o0 == 127) (a.o0 == 10) (a.o0 == 172)
    (decide (16 ≤ a.o1 ∧ a.o1 ≤ 31)) (a.o0 == 192) (a.o1 == 168) (a.o0 == 169)
    (a.o1 == 254) (a.o0 == 0) (a.o1 == 0) (a.o2 == 0) (a.o3 == 0) (a.o0 == 255)
    (a.o1 == 255) (a.o2 == 255) (a.o3 == 255) (a.o0 == 100)
    (decide (64 ≤ a.o1 ∧ a.o1 ≤ 127))

theorem mask_ffc0_bool (s : Nat) (h : s < 65536) :
    ((s &&& 0xffc0) == 0xfe80) = decide (0xfe80 ≤ s ∧ s ≤ 0xfebf) := by
  rw [Bool.eq_iff_iff, beq_iff_eq, decide_eq_true_eq, land_ffc0_val]
  omega

theorem mask_fe00_bool (s : Nat) (h : s < 65536) :
    ((s &&& 0xfe00) == 0xfc00) = decide (0xfc00 ≤ s ∧ s ≤ 0xfdff) := by
  rw [Bool.eq_iff_iff, beq_iff_eq, decide_eq_true_eq, land_fe00_val]
  omega

/-- C3 (amended): with the broadcast address 255.255.255.255 added to the IPv4
policy set (and hence to the embedded-IPv4 check of IPv4-mapped IPv6
addresses), the host classifier blocks exactly the static policy set: a
well-formed host is blocked iff it is in the amended set. -/
theorem c3_host_classifier_exact (h : Host) (hw : h.Wf = true) :
    is_blocked_host (some h) = c3_amended_host h := by
  cases h with
  | v4 a =>
      simp only [is_blocked_host, is_private_ip, c3_amended_host]
      exact is_private_v4_eq_amended a
  | v6 a =>
      rcases a with ⟨s0, s1, s2, s3, s4, s5, s6, s7⟩
      have h0 : s0 < 65536 := by
        simp only [Host.Wf, Ipv6.Wf, decide_eq_true_eq] at hw
        exact hw.1
      simp only [is_blocked_host, c3_amended_host, is_private_ip,
        is_ipv6_link_local, is_ipv6_unique_local]
      rw [mask_ffc0_bool s0 h0, mask_fe00_bool s0 h0]
      by_cases hm : s0 = 0 ∧ s1 = 0 ∧ s2 = 0 ∧ s3 = 0 ∧ s4 = 0 ∧ s5 = 65535
      · obtain ⟨e0, e1, e2, e3, e4, e5⟩ := hm
        subst e0 e1 e2 e3 e4 e5
        simp [Ipv6.to_ipv4_mapped, Ipv6.is_loopback, Ipv6.is_unspecified,
          is_private_v4_eq_amended, c3_amended_v6]
      · have hnone : Ipv6.to_ipv4_mapped ⟨s0, s1, s2, s3, s4, s5, s6, s7⟩ = none := by
          simp only [Ipv6.to_ipv4_mapped]
          exact if_neg hm
        rw [hnone]
        have hC : (s0 == 0 && s1 == 0 && s2 == 0 && s3 == 0 && s4 == 0
            && s5 == 65535) = false := by
          simp only [Bool.and_eq_true, beq_iff_eq, Bool.eq_false_iff, ne_eq]
          intro hcon
          exact hm (by tauto)
        simp only [c3_amended_v6]
        rw [hC]
        simp [Ipv6.is_loopback, Ipv6.is_unspecified]
  | domain d =>
      simp only [is_blocked_host, c3_amended_host, c3_claim_domain]

/-- C3 witness: the amended classification applied to the well-formed link-local
IPv6 address fe80::1. -/
theorem c3_host_classifier_exact_witness :
    Host.Wf (.v6 ⟨0xfe80, 0, 0, 0, 0, 0, 0, 1⟩) = true
      ∧ is_blocked_host (some (.v6 ⟨0xfe80, 0, 0, 0, 0, 0, 0, 1⟩))
        = c3_amended_host (.v6 ⟨0xfe80, 0, 0, 0, 0, 0, 0, 1⟩) :=
  ⟨by decide, c3_host_classifier_exact _ (by decide)⟩

/-- src/fetch/mod.rs FetchError (error payloads reduced to their message
strings/codes). -/
inductive FetchError where
  | InvalidScheme
  | InvalidUrl (msg : String)
  | InternalHost
  | Http (msg : String)
  | DnsResolution (msg : String)
  | Status (code : Nat)
  | UnsupportedContentType (mime : String)
  | TooLarge
  | Timeout (msg : String)
deriving DecidableEq, Repr

deriving instance DecidableEq for Except

/-- A URL as parsed by the url crate, restricted to the fields the SSRF guard
reads: scheme, optional host, optional explicit port. -/
structure Url where
  scheme : String
  host : Option Host
  port : Option Nat
deriving DecidableEq, Repr

/-- The DNS resolver capability (ssrf.rs trait DnsResolver), as a pure oracle:
given hostname and port it returns the resolved addresses or a FetchError. -/
def DnsResolver : Type := String → Nat → Except FetchError (List IpAddr)

/-- src/fetch/ssrf.rs validate_url_sync, over an already-parsed URL: scheme
must be http or https, then the static host policy is applied. -/
def validate_url_sync (u : Url) : Except FetchError Url :=
  if u.scheme = "http" ∨ u.scheme = "https" then
    if is_blocked_host u.host then .error .InternalHost else .ok u
  else
    .error .InvalidScheme

/-- The port used for DNS lookup in ssrf_check: the URL's explicit port, or
443 for https and 80 otherwise. -/
def effective_port (u : Url) : Nat :=
  u.port.getD (if u.scheme = "https" then 443 else 80)

/-- src/fetch/ssrf.rs ssrf_check: static validation, then, for domain hosts
only, resolve and fail closed if any resolved address is private. -/
def ssrf_check (u : Url) (resolver : DnsResolver) : Except FetchError Unit :=
  match validate_url_sync u with
  | .error e => .error e
  | .ok parsed =>
      match parsed.host with
      | some (.domain d) =>
          match resolver d (effective_port parsed) with
          | .error e => .error e
          | .ok addrs =>
              if addrs.any is_private_ip then .error .InternalHost else .ok ()
      | _ => .ok ()

theorem validate_url_sync_ok_eq (u p : Url) (h : validate_url_sync u = .ok p) :
    p = u := by
  unfold validate_url_sync at h
  split_ifs at h <;> simp_all

/-- C1: for a URL whose host is a domain that passes the static classifier, the
guard resolves it and classifies every returned address with is_private_ip —
it returns InternalHost iff at least one resolved address is private, and
succeeds iff all are public; for a URL whose host is not a domain, the result
does not depend on the resolver at all (the resolver is never consulted). -/
theorem c1_ssrf_check_resolved_policy :
    (∀ (u : Url) (d : String) (resolver : DnsResolver) (addrs : List IpAddr),
      u.host = some (.domain d) →
      validate_url_sync u = .ok u →
      resolver d (effective_port u) = .ok addrs →
      (ssrf_check u resolver = .error .InternalHost
          ↔ ∃ ip ∈ addrs, is_private_ip ip = true)
        ∧ (ssrf_check u resolver = .ok ()
          ↔ ∀ ip ∈ addrs, is_private_ip ip = false))
    ∧ (∀ (u : Url) (r1 r2 : DnsResolver),
        (∀ d, u.host ≠ some (.domain d)) →
        ssrf_check u r1 = ssrf_check u r2) := by
  constructor
  · intro u d resolver addrs hh hv hr
    simp only [ssrf_check, hv, hh, hr]
    by_cases ha : addrs.any is_private_ip
    · rw [if_pos ha]
      simp only [List.any_eq_true] at ha
      refine ⟨⟨fun _ => ha, fun _ => rfl⟩, ?_, ?_⟩
      · intro hcon
        exact absurd hcon (by simp)
      · intro hall
        obtain ⟨ip, hip, hpriv⟩ := ha
        exact absurd (hall ip hip) (by simp [hpriv])
    · rw [if_neg ha]
      simp only [List.any_eq_true, not_exists] at ha
      push_neg at ha
      refine ⟨⟨fun hcon => absurd hcon (by simp), ?_⟩, ⟨fun _ => ?_, fun _ => rfl⟩⟩
      · intro hex
        obtain ⟨ip, hip, hpriv⟩ := hex
        exact absurd hpriv (ha ip hip)
      · intro ip hip
        exact Bool.eq_false_iff.mpr (ha ip hip)
  · intro u r1 r2 hnd
    unfold ssrf_check
    cases hval : validate_url_sync u with
    | error e => simp only [hval]
    | ok p =>
        have hp : p = u := validate_url_sync_ok_eq u p hval
        subst hp
        cases hh : p.host with
        | none => simp only [hh]
        | some host =>
            cases host with
            | v4 a => simp only [hh]
            | v6 a => simp only [hh]
            | domain d => exact absurd hh (hnd d)

/-- C1 witness: a domain URL resolving to one private and one public address is
blocked, and an IP-literal URL ignores the resolver. -/
theorem c1_ssrf_check_resolved_policy_witness :
    ((ssrf_check ⟨"https", some (.domain "example.com"), none⟩
          (fun _ _ => .ok [.V4 ⟨10, 0, 0, 1⟩, .V4 ⟨8, 8, 8, 8⟩])
        = .error .InternalHost
      ↔ ∃ ip ∈ [IpAddr.V4 ⟨10, 0, 0, 1⟩, IpAddr.V4 ⟨8, 8, 8, 8⟩],
          is_private_ip ip = true)
      ∧ ssrf_check ⟨"https", some (.v4 ⟨8, 8, 8, 8⟩), none⟩
          (fun _ _ => .ok [.V4 ⟨10, 0, 0, 1⟩])
        = ssrf_check ⟨"https", some (.v4 ⟨8, 8, 8, 8⟩), none⟩
          (fun _ _ => .error (.DnsResolution "boom"))) :=
  ⟨(c1_ssrf_check_resolved_policy.1 _ "example.com" _ _ rfl (by decide) rfl).1,
    c1_ssrf_check_resolved_policy.2 _ _ _ (fun d h => by simp at h)⟩

/-- The result of a fetch (converter.rs FetchResult): final URL, markdown,
and whether raw fallback was used. -/
structure FetchResult where
  url : String
  markdown : String
  used_raw_fallback : Bool
deriving DecidableEq, Repr

/-- Observable events of fetch_page, in order: an SSRF guard invocation on a
URL, or network transfer of a URL (the download call). -/
inductive FetchEvent where
  | guard (u : Url)
  | net (u : Url)
deriving DecidableEq, Repr

/-- src/fetch/mod.rs fetch_page, instrumented with its event trace.  The HTTP
transport (the download function, which follows redirects and returns the
final URL plus the decoded body) and the extraction/markdown conversion step
(extract_raw / extract_article composed with to_fetch_result, an excluded
collaborator) are oracles; work happens in the parsed-URL domain. -/
def fetch_page (resolver : DnsResolver)
    (transport : Url → Except FetchError (Url × String))
    (render : Bool → Bool → String → Url → FetchResult)
    (u : Url) (raw meta : Bool) : List FetchEvent × Except FetchError FetchResult :=
  match ssrf_check u resolver with
  | .error e => ([.guard u], .error e)
  | .ok () =>
      match transport u with
      | .error e => ([.guard u, .net u], .error e)
      | .ok (final_url, html) =>
          match ssrf_check final_url resolver with
          | .error e => ([.guard u, .net u, .guard final_url], .error e)
          | .ok () =>
              ([.guard u, .net u, .guard final_url],
                .ok (render raw meta html final_url))

/-- C2: fetch_page invokes the SSRF guard exactly twice per successful fetch —
once on the original URL before the network transfer and once on the final
post-redirect URL — and any guard or transport failure is returned as is, with
no artifact produced and no further events. -/
theorem c2_fetch_page_guard_twice (resolver : DnsResolver)
    (transport : Url → Except FetchError (Url × String))
    (render : Bool → Bool → String → Url → FetchResult)
    (u : Url) (raw meta : Bool) :
    (∀ e, ssrf_check u resolver = .error e →
      fetch_page resolver transport render u raw meta = ([.guard u], .error e))
    ∧ (∀ e, ssrf_check u resolver = .ok () → transport u = .error e →
      fetch_page resolver transport render u raw meta
        = ([.guard u, .net u], .error e))
    ∧ (∀ f h e, ssrf_check u resolver = .ok () → transport u = .ok (f, h) →
        ssrf_check f resolver = .error e →
      fetch_page resolver transport render u raw meta
        = ([.guard u, .net u, .guard f], .error e))
    ∧ (∀ f h, ssrf_check u resolver = .ok () → transport u = .ok (f, h) →
        ssrf_check f resolver = .ok () →
      fetch_page resolver transport render u raw meta
        = ([.guard u, .net u, .guard f], .ok (render raw meta h f))) := by
  refine ⟨?_, ?_, ?_, ?_⟩
  · intro e h1
    simp only [fetch_page, h1]
  · intro e h1 h2
    simp only [fetch_page, h1, h2]
  · intro f h e h1 h2 h3
    simp only [fetch_page, h1, h2, h3]
  · intro f h h1 h2 h3
    simp only [fetch_page, h1, h2, h3]

/-- C2 witness: a concrete successful fetch whose trace is exactly
guard-original, transfer, guard-final. -/
theorem c2_fetch_page_guard_twice_witness :
    fetch_page (fun _ _ => .ok [.V4 ⟨8, 8, 8, 8⟩])
        (fun _ => .ok (⟨"https", some (.v4 ⟨9, 9, 9, 9⟩), none⟩, "<html>"))
        (fun r _ h _ => ⟨"final", h, r⟩)
        ⟨"https", some (.domain "example.com"), none⟩ false true
      = ([.guard ⟨"https", some (.domain "example.com"), none⟩,
          .net ⟨"https", some (.domain "example.com"), none⟩,
          .guard ⟨"https", some (.v4 ⟨9, 9, 9, 9⟩), none⟩],
        .ok ⟨"final", "<html>", false⟩) :=
  (c2_fetch_page_guard_twice _ _ _ _ false true).2.2.2
    ⟨"https", some (.v4 ⟨9, 9, 9, 9⟩), none⟩ "<html>" (by decide) rfl (by decide)

/-- src/fetch/mod.rs MAX_RESPONSE_BYTES. -/
def MAX_RESPONSE_BYTES : Nat := 10000000

/-- The Content-Type header of a response: absent, present but not valid
ASCII, or an ASCII string. -/
inductive CTHeader where
  | absent
  | nonAscii
  | ascii (s : String)
deriving DecidableEq, Repr

/-- An HTTP response as observed by download: status, Content-Type header,
declared Content-Length, final URL after redirects, and the body as the list
of chunks the transport yields (each chunk a list of bytes). -/
structure MockResponse where
  status : Nat
  content_type : CTHeader
  content_length : Option Nat
  final_url : Url
  chunks : List (List Nat)

/-- Rust str trim on a character list (whitespace at both ends removed). -/
def trimChars (l : List Char) : List Char :=
  ((l.dropWhile Char.isWhitespace).reverse.dropWhile Char.isWhitespace).reverse

/-- Rust str::starts_with, via list prefixes. -/
def starts_with (s p : String) : Bool := p.toList.isPrefixOf s.toList

/-- The MIME type of a Content-Type header value: everything before the first
';', trimmed (content_type.split(';').next().unwrap_or("").trim()). -/
def mime_of (ct : String) : String :=
  String.mk (trimChars (ct.toList.takeWhile (fun c => c ≠ ';')))

/-- src/fetch/mod.rs check_content_type. -/
def check_content_type (ct : String) : Except FetchError Unit :=
  let mime := mime_of ct
  if !(mime == "") && !(starts_with mime "text/")
      && !(mime == "application/xhtml+xml") && !(mime == "application/xml")
      && !(mime == "application/json") then
    .error (.UnsupportedContentType mime)
  else
    .ok ()

/-- Rust str::split on a character predicate: all pieces, empties included. -/
def splitCharsOn (p : Char → Bool) : List Char → List (List Char)
  | [] => [[]]
  | c :: rest =>
      let r := splitCharsOn p rest
      if p c then [] :: r
      else
        match r with
        | [] => [[c]]
        | w :: ws => (c :: w) :: ws

/-- Rust str::trim_matches with a single character, on a character list. -/
def trimMatches (c : Char) (l : List Char) : List Char :=
  ((l.dropWhile (· == c)).reverse.dropWhile (· == c)).reverse

/-- src/fetch/mod.rs extract_charset: scan the parameters after the first ';'
for charset=..., lowercased, trimmed, with surrounding quotes removed. -/
def extract_charset (ct : String) : Option String :=
  ((splitCharsOn (fun c => c == ';') ct.toList).drop 1).findSome? fun param =>
    let p := trimChars param
    let lower := p.map asciiLowerChar
    if "charset=".toList.isPrefixOf lower then
      let value := trimMatches '"' (trimChars (lower.drop 8))
      if value.isEmpty then none else some (String.mk value)
    else
      none

/-- The Content-Type handling at the top of download: an absent or non-ASCII
header proceeds as text with no declared charset; an ASCII header must pass
check_content_type and yields the declared charset, if any. -/
def header_charset : CTHeader → Except FetchError (Option String)
  | .absent => .ok none
  | .nonAscii => .ok none
  | .ascii s =>
      match check_content_type s with
      | .error e => .error e
      | .ok () => .ok (extract_charset s)

/-- The streaming loop of download: append each chunk to the body and abort
with TooLarge as soon as the accumulated length exceeds the cap.  The first
component counts the chunks consumed. -/
def stream_chunks : List (List Nat) → List Nat → Nat × Except FetchError (List Nat)
  | [], body => (0, .ok body)
  | c :: rest, body =>
      let body2 := body ++ c
      if body2.length > MAX_RESPONSE_BYTES then
        (1, .error .TooLarge)
      else
        let r := stream_chunks rest body2
        (r.1 + 1, r.2)

/-- src/fetch/mod.rs download, instrumented with the number of body chunks
consumed.  Body decoding (decode_body, using encoding_rs) is an oracle. -/
def download (decode : List Nat → Option String → String) (resp : MockResponse) :
    Nat × Except FetchError (Url × String) :=
  if 200 ≤ resp.status ∧ resp.status ≤ 299 then
    match header_charset resp.content_type with
    | .error e => (0, .error e)
    | .ok charset =>
        if (resp.content_length.map fun len => decide (MAX_RESPONSE_BYTES < len)).getD
            false then
          (0, .error .TooLarge)
        else
          match stream_chunks resp.chunks [] with
          | (n, .error e) => (n, .error e)
          | (n, .ok body) => (n, .ok (resp.final_url, decode body charset))
  else
    (0, .error (.Status resp.status))

/-- Index (1-based) of the chunk whose arrival first pushes the accumulated
length past the cap, if any. -/
def chunks_to_exceed : Nat → List (List Nat) → Option Nat
  | _, [] => none
  | acc, c :: rest =>
      if acc + c.length > MAX_RESPONSE_BYTES then
        some 1
      else
        (chunks_to_exceed (acc + c.length) rest).map (· + 1)

theorem stream_chunks_none (chunks : List (List Nat)) : ∀ body : List Nat,
    chunks_to_exceed body.length chunks = none →
    stream_chunks chunks body = (chunks.length, .ok (body ++ chunks.flatten)) := by
  induction chunks with
  | nil => intro body _; simp [stream_chunks]
  | cons c rest ih =>
      intro body h
      simp only [chunks_to_exceed] at h
      by_cases hc : body.length + c.length > MAX_RESPONSE_BYTES
      · rw [if_pos hc] at h
        exact absurd h (by simp)
      · rw [if_neg hc] at h
        have h2 : chunks_to_exceed (body.length + c.length) rest = none := by
          cases hx : chunks_to_exceed (body.length + c.length) rest
          · rfl
          · rw [hx] at h; simp at h
        have hb : (body ++ c).length = body.length + c.length := List.length_append body c
        simp only [stream_chunks]
        rw [if_neg (by omega : ¬ (body ++ c).length > MAX_RESPONSE_BYTES)]
        have := ih (body ++ c) (by rw [hb]; exact h2)
        rw [this]
        simp [List.append_assoc]

theorem stream_chunks_some (chunks : List (List Nat)) : ∀ (body : List Nat) (k : Nat),
    chunks_to_exceed body.length chunks = some k →
    stream_chunks chunks body = (k, .error .TooLarge) := by
  induction chunks with
  | nil => intro body k h; simp [chunks_to_exceed] at h
  | cons c rest ih =>
      intro body k h
      simp only [chunks_to_exceed] at h
      by_cases hc : body.length + c.length > MAX_RESPONSE_BYTES
      · rw [if_pos hc] at h
        have hk : k = 1 := by
          have := h
          simp at this
          omega
        subst hk
        have hb : (body ++ c).length = body.length + c.length := List.length_append body c
        simp only [stream_chunks]
        rw [if_pos (by omega : (body ++ c).length > MAX_RESPONSE_BYTES)]
      · rw [if_neg hc] at h
        obtain ⟨k0, hk0, hkk⟩ : ∃ k0,
            chunks_to_exceed (body.length + c.length) rest = some k0 ∧ k = k0 + 1 := by
          cases hx : chunks_to_exceed (body.length + c.length) rest
          · rw [hx] at h; simp at h
          · rw [hx] at h
            simp at h
            exact ⟨_, rfl, h.symm⟩
        have hb : (body ++ c).length = body.length + c.length := List.length_append body c
        simp only [stream_chunks]
        rw [if_neg (by omega : ¬ (body ++ c).length > MAX_RESPONSE_BYTES)]
        have := ih (body ++ c) k0 (by rw [hb]; exact hk0)
        rw [this, hkk]

theorem stream_chunks_error (chunks : List (List Nat)) : ∀ (body : List Nat) e,
    (stream_chunks chunks body).2 = .error e → e = .TooLarge := by
  induction chunks with
  | nil => intro body e h; simp [stream_chunks] at h
  | cons c rest ih =>
      intro body e h
      simp only [stream_chunks] at h
      by_cases hc : (body ++ c).length > MAX_RESPONSE_BYTES
      · rw [if_pos hc] at h
        simp at h
        exact h.symm
      · rw [if_neg hc] at h
        exact ih (body ++ c) e h

theorem chunks_to_exceed_bounds (chunks : List (List Nat)) : ∀ acc k,
    acc ≤ MAX_RESPONSE_BYTES →
    chunks_to_exceed acc chunks = some k →
    1 ≤ k ∧ k ≤ chunks.length
      ∧ acc + ((chunks.take k).map List.length).sum > MAX_RESPONSE_BYTES
      ∧ ∀ j < k, acc + ((chunks.take j).map List.length).sum ≤ MAX_RESPONSE_BYTES := by
  induction chunks with
  | nil => intro acc k _ h; simp [chunks_to_exceed] at h
  | cons c rest ih =>
      intro acc k hacc h
      simp only [chunks_to_exceed] at h
      by_cases hc : acc + c.length > MAX_RESPONSE_BYTES
      · rw [if_pos hc] at h
        have hk : k = 1 := by simp at h; omega
        subst hk
        refine ⟨le_refl 1, by simp, by simpa using hc, ?_⟩
        intro j hj
        interval_cases j
        simpa using hacc
      · rw [if_neg hc] at h
        obtain ⟨k0, hk0, hkk⟩ : ∃ k0,
            chunks_to_exceed (acc + c.length) rest = some k0 ∧ k = k0 + 1 := by
          cases hx : chunks_to_exceed (acc + c.length) rest
          · rw [hx] at h; simp at h
          · rw [hx] at h
            simp at h
            exact ⟨_, rfl, h.symm⟩
        obtain ⟨ih1, ih2, ih3, ih4⟩ := ih (acc + c.length) k0 (by omega) hk0
        subst hkk
        refine ⟨by omega, by simp; omega, ?_, ?_⟩
        · simpa [List.sum_cons, Nat.add_assoc] using ih3
        · intro j hj
          cases j with
          | zero => simpa using hacc
          | succ j0 =>
              have := ih4 j0 (by omega)
              simpa [List.sum_cons, Nat.add_assoc] using this

/-- C4: under a success status and an acceptable Content-Type, download
enforces the 10,000,000-byte cap twice with the same error kind TooLarge — a
declared Content-Length above the cap is rejected with zero chunks read, and
an undeclared (or truthfully small declared) length is aborted at exactly the
first chunk pushing the accumulated body past the cap, while a body that never
exceeds the cap is streamed completely. -/
theorem c4_download_size_cap (decode : List Nat → Option String → String)
    (resp : MockResponse) (cs : Option String)
    (hs1 : 200 ≤ resp.status) (hs2 : resp.status ≤ 299)
    (hct : header_charset resp.content_type = .ok cs) :
    (∀ len, resp.content_length = some len → MAX_RESPONSE_BYTES < len →
      download decode resp = (0, .error .TooLarge))
    ∧ ((resp.content_length = none
          ∨ ∃ len, resp.content_length = some len ∧ len ≤ MAX_RESPONSE_BYTES) →
        (∀ k, chunks_to_exceed 0 resp.chunks = some k →
          download decode resp = (k, .error .TooLarge)
            ∧ 1 ≤ k ∧ k ≤ resp.chunks.length
            ∧ ((resp.chunks.take k).map List.length).sum > MAX_RESPONSE_BYTES
            ∧ ∀ j < k,
              ((resp.chunks.take j).map List.length).sum ≤ MAX_RESPONSE_BYTES)
        ∧ (chunks_to_exceed 0 resp.chunks = none →
          download decode resp
            = (resp.chunks.length, .ok (resp.final_url, decode resp.chunks.flatten cs)))) := by
  constructor
  · intro len hlen hbig
    unfold download
    have hgetd : (resp.content_length.map fun len =>
        decide (MAX_RESPONSE_BYTES < len)).getD false = true := by
      rw [hlen]; simp; omega
    rw [if_pos ⟨hs1, hs2⟩, hct, hgetd]
    rfl
  · intro hsmall
    have hnd : (resp.content_length.map fun len =>
        decide (MAX_RESPONSE_BYTES < len)).getD false = false := by
      rcases hsmall with hnone | ⟨len, hlen, hle⟩
      · rw [hnone]; rfl
      · rw [hlen]; simp; omega
    constructor
    · intro k hk
      have hstream := stream_chunks_some resp.chunks [] k (by simpa using hk)
      have hbounds := chunks_to_exceed_bounds resp.chunks 0 k
        (by simp [MAX_RESPONSE_BYTES]) hk
      refine ⟨?_, hbounds.1, hbounds.2.1, by simpa using hbounds.2.2.1,
        fun j hj => by simpa using hbounds.2.2.2 j hj⟩
      unfold download
      rw [if_pos ⟨hs1, hs2⟩, hct, hnd, hstream]
      rfl
    · intro hnone
      have hstream := stream_chunks_none resp.chunks [] (by simpa using hnone)
      unfold download
      rw [if_pos ⟨hs1, hs2⟩, hct, hnd, hstream]
      rfl

/-- C4 witness: a response declaring 10,000,001 bytes is rejected with zero
chunks read, and a two-chunk undeclared-length body whose second chunk passes
the cap is aborted at chunk 2. -/
theorem c4_download_size_cap_witness :
    download (fun _ _ => "") ⟨200, .absent, some 10000001,
        ⟨"https", some (.domain "example.com"), none⟩, []⟩
      = (0, .error .TooLarge)
    ∧ download (fun _ _ => "") ⟨200, .absent, none,
        ⟨"https", some (.domain "example.com"), none⟩,
        [List.replicate 9999999 0, List.replicate 2 0]⟩
      = (2, .error .TooLarge) := by
  constructor
  · exact (c4_download_size_cap (fun _ _ => "")
      ⟨200, .absent, some 10000001,
        ⟨"https", some (.domain "example.com"), none⟩, []⟩
      none (by decide) (by decide) rfl).1
      10000001 rfl (by norm_num [MAX_RESPONSE_BYTES])
  · refine ((c4_download_size_cap (fun _ _ => "")
      ⟨200, .absent, none,
        ⟨"https", some (.domain "example.com"), none⟩,
        [List.replicate 9999999 0, List.replicate 2 0]⟩
      none (by decide) (by decide) rfl).2
      (Or.inl rfl)).1 2 ?_ |>.1
    show chunks_to_exceed 0 [List.replicate 9999999 0, List.replicate 2 0] = some 2
    have h1 : (List.replicate 9999999 (0 : Nat)).length = 9999999 :=
      List.length_replicate ..
    have h2 : (List.replicate 2 (0 : Nat)).length = 2 := List.length_replicate ..
    simp only [chunks_to_exceed, h1, h2, MAX_RESPONSE_BYTES]
    norm_num

/-- Modelled from the claim wording: the MIME type (the part of the header
before any ';', trimmed) is non-empty and is neither text/* nor
application/xhtml+xml nor application/xml nor application/json. -/
def c9_claim_reject (ct : String) : Bool :=
  let mime := mime_of ct
  !(mime == "") && !(starts_with mime "text/")
    && !(mime == "application/xhtml+xml") && !(mime == "application/xml")
    && !(mime == "application/json")

theorem check_content_type_eq (s : String) :
    check_content_type s
      = if c9_claim_reject s then .error (.UnsupportedContentType (mime_of s))
        else .ok () := rfl

theorem download_no_uct_after_header (decode : List Nat → Option String → String)
    (resp : MockResponse) (charset : Option String)
    (hs : 200 ≤ resp.status ∧ resp.status ≤ 299)
    (hh : header_charset resp.content_type = .ok charset) :
    ∀ m, (download decode resp).2 ≠ .error (.UnsupportedContentType m) := by
  intro m
  unfold download
  rw [if_pos hs, hh]
  by_cases hcl : (resp.content_length.map fun len =>
      decide (MAX_RESPONSE_BYTES < len)).getD false = true
  · rw [hcl]
    intro hcon
    exact absurd hcon (by simp)
  · rw [Bool.not_eq_true] at hcl
    rw [hcl]
    rcases hst : stream_chunks resp.chunks [] with ⟨n, r⟩
    cases r with
    | error e =>
        have he : e = .TooLarge := stream_chunks_error _ _ _ (by rw [hst])
        subst he
        intro hcon
        exact absurd hcon (by simp)
    | ok body =>
        intro hcon
        exact absurd hcon (by simp)

/-- C9: under a success status, download returns UnsupportedContentType(mime)
for an ASCII Content-Type header exactly when the claim's MIME condition
holds — in which case the payload is the MIME part before any ';' and no body
chunk has been read — while an absent or non-ASCII header never produces an
UnsupportedContentType error. -/
theorem c9_download_content_type_policy
    (decode : List Nat → Option String → String) (resp : MockResponse) (s : String)
    (hs1 : 200 ≤ resp.status) (hs2 : resp.status ≤ 299) :
    (resp.content_type = .ascii s →
      ((download decode resp).2 = .error (.UnsupportedContentType (mime_of s))
        ↔ c9_claim_reject s = true)
      ∧ (c9_claim_reject s = true →
        download decode resp = (0, .error (.UnsupportedContentType (mime_of s))))
      ∧ (∀ m, (download decode resp).2 = .error (.UnsupportedContentType m) →
        m = mime_of s))
    ∧ ((resp.content_type = .absent ∨ resp.content_type = .nonAscii) →
      ∀ m, (download decode resp).2 ≠ .error (.UnsupportedContentType m)) := by
  constructor
  · intro hct
    by_cases hr : c9_claim_reject s = true
    · have hdl : download decode resp = (0, .error (.UnsupportedContentType (mime_of s))) := by
        unfold download
        rw [if_pos ⟨hs1, hs2⟩, hct]
        have hred : header_charset (.ascii s)
            = match check_content_type s with
              | .error e => .error e
              | .ok () => .ok (extract_charset s) := rfl
        have hh : header_charset (.ascii s)
            = .error (.UnsupportedContentType (mime_of s)) := by
          rw [hred, check_content_type_eq, if_pos hr]
        rw [hh]
      refine ⟨⟨fun _ => hr, fun _ => by rw [hdl]⟩, fun _ => hdl, ?_⟩
      intro m hm
      rw [hdl] at hm
      simpa using hm.symm
    · have hh : header_charset resp.content_type = .ok (extract_charset s) := by
        rw [hct]
        have hred : header_charset (.ascii s)
            = match check_content_type s with
              | .error e => .error e
              | .ok () => .ok (extract_charset s) := rfl
        rw [hred, check_content_type_eq, if_neg hr]
      have hno := download_no_uct_after_header decode resp (extract_charset s)
        ⟨hs1, hs2⟩ hh
      exact ⟨⟨fun hcon => absurd hcon (hno _), fun hcon => absurd hcon hr⟩,
        fun hcon => absurd hcon hr, fun m hm => absurd hm (hno m)⟩
  · intro hct
    have hh : header_charset resp.content_type = .ok none := by
      rcases hct with h | h <;> rw [h] <;> rfl
    exact download_no_uct_after_header decode resp none ⟨hs1, hs2⟩ hh

/-- C9 witness: an application/pdf response is rejected with the pdf MIME as
payload, and an absent header response never yields that error. -/
theorem c9_download_content_type_policy_witness :
    ((download (fun _ _ => "") ⟨200, .ascii "application/pdf; x=1", none,
          ⟨"https", some (.domain "example.com"), none⟩, [[104]]⟩).2
        = .error (.UnsupportedContentType (mime_of "application/pdf; x=1"))
      ↔ c9_claim_reject "application/pdf; x=1" = true)
    ∧ ∀ m, (download (fun _ _ => "") ⟨200, .absent, none,
          ⟨"https", some (.domain "example.com"), none⟩, [[104]]⟩).2
        ≠ .error (.UnsupportedContentType m) :=
  ⟨((c9_download_content_type_policy (fun _ _ => "")
      ⟨200, .ascii "application/pdf; x=1", none,
        ⟨"https", some (.domain "example.com"), none⟩, [[104]]⟩
      "application/pdf; x=1" (by decide) (by decide)).1 rfl).1,
    (c9_download_content_type_policy (fun _ _ => "")
      ⟨200, .absent, none,
        ⟨"https", some (.domain "example.com"), none⟩, [[104]]⟩
      "" (by decide) (by decide)).2 (Or.inl rfl)⟩

/-- src/search/bilingual.rs contains_japanese: hiragana, katakana, CJK unified
ideographs, CJK extension A. -/
def contains_japanese (s : String) : Bool :=
  s.toList.any fun c =>
    decide (0x3040 ≤ c.toNat ∧ c.toNat ≤ 0x309F)
      || decide (0x30A0 ≤ c.toNat ∧ c.toNat ≤ 0x30FF)
      || decide (0x4E00 ≤ c.toNat ∧ c.toNat ≤ 0x9FFF)
      || decide (0x3400 ≤ c.toNat ∧ c.toNat ≤ 0x4DBF)

/-- Rust char::is_ascii_alphanumeric: 0-9, A-Z, a-z. -/
def is_ascii_alphanumeric (c : Char) : Bool :=
  decide (48 ≤ c.toNat ∧ c.toNat ≤ 57)
    || decide (65 ≤ c.toNat ∧ c.toNat ≤ 90)
    || decide (97 ≤ c.toNat ∧ c.toNat ≤ 122)

/-- The split predicate of to_english_query: a character is a delimiter iff it
is not ASCII alphanumeric and not one of the connector characters. -/
def token_delim (c : Char) : Bool :=
  !(is_ascii_alphanumeric c) && !(c == '-') && !(c == '_') && !(c == '.')

/-- Rust slice join with a single space, on character lists. -/
def joinWords : List (List Char) → List Char
  | [] => []
  | [w] => w
  | w :: rest => w ++ ' ' :: joinWords rest

/-- src/search/bilingual.rs to_english_query: the pieces of the query between
delimiter characters, of length at least 2 (the pieces are pure ASCII, so the
Rust byte length equals the character count), joined by spaces; the query
itself when no such piece exists. -/
def to_english_query (query : String) : String :=
  let ascii_words := (splitCharsOn token_delim query.toList).filter fun w => 2 ≤ w.length
  if ascii_words.isEmpty then query else String.mk (joinWords ascii_words)

/-- src/search/bilingual.rs expand_bilingual. -/
def expand_bilingual (query : String) : List String :=
  if contains_japanese query then
    let eng := to_english_query query
    if eng == query then [query] else [query, eng]
  else
    [query]

/-- Modelled from the claim wording: the ASCII alphanumeric tokens of length at
least 2 of the query (maximal runs of ASCII alphanumeric characters). -/
def c7_claim_tokens (query : String) : List (List Char) :=
  (splitCharsOn (fun c => !(is_ascii_alphanumeric c)) query.toList).filter
    fun w => 2 ≤ w.length

/-- Modelled from the claim wording: under auto-detect, the original query,
plus — only when it contains CJK/kana characters — a second query joining the
ASCII alphanumeric tokens of length at least 2 with spaces; only the original
when no such token exists. -/
def c7_claim_expand (query : String) : List String :=
  if contains_japanese query then
    let toks := c7_claim_tokens query
    if toks.isEmpty then [query] else [query, String.mk (joinWords toks)]
  else
    [query]

/-- C7 counterexample: on the query consisting of an ideograph and two
hyphens, the code produces the second query consisting of the two hyphens,
though the query has no ASCII alphanumeric token at all — the claim, which
admits only ASCII alphanumeric tokens, predicts a single query. -/
theorem c7_counterexample_hyphens :
    expand_bilingual "型 --" = ["型 --", "--"]
      ∧ c7_claim_expand "型 --" = ["型 --"] := by
  constructor
  · decide
  · decide

theorem splitCharsOn_sound (p : Char → Bool) : ∀ (l w : List Char),
    w ∈ splitCharsOn p l → ∀ c ∈ w, p c = false := by
  intro l
  induction l with
  | nil =>
      intro w hw c hc
      simp only [splitCharsOn, List.mem_singleton] at hw
      subst hw
      simp at hc
  | cons c0 rest ih =>
      intro w hw c hc
      simp only [splitCharsOn] at hw
      by_cases hp : p c0 = true
      · rw [if_pos hp] at hw
        rcases List.mem_cons.mp hw with h | h
        · subst h; simp at hc
        · exact ih w h c hc
      · rw [if_neg hp] at hw
        cases hr : splitCharsOn p rest with
        | nil =>
            rw [hr] at hw
            simp only [List.mem_singleton] at hw
            subst hw
            rcases List.mem_cons.mp hc with h2 | h2
            · subst h2; exact Bool.eq_false_iff.mpr hp
            · simp at h2
        | cons w0 ws =>
            rw [hr] at hw
            rcases List.mem_cons.mp hw with h | h
            · subst h
              rcases List.mem_cons.mp hc with h2 | h2
              · subst h2; exact Bool.eq_false_iff.mpr hp
              · refine ih w0 ?_ c h2
                rw [hr]
                exact List.mem_cons_self w0 ws
            · refine ih w ?_ c hc
              rw [hr]
              exact List.mem_cons_of_mem _ h

theorem token_char_ascii (c : Char) (h : token_delim c = false) : c.toNat < 128 := by
  simp only [token_delim, Bool.and_eq_false_iff, Bool.not_eq_false',
    beq_iff_eq] at h
  rcases h with ((ha | hb) | hc) | hd
  · simp only [is_ascii_alphanumeric, Bool.or_eq_true, decide_eq_true_eq] at ha
    omega
  · subst hb; decide
  · subst hc; decide
  · subst hd; decide

theorem joinWords_mem (ws : List (List Char)) : ∀ c ∈ joinWords ws,
    c = ' ' ∨ ∃ w ∈ ws, c ∈ w := by
  induction ws with
  | nil => intro c hc; simp [joinWords] at hc
  | cons w rest ih =>
      intro c hc
      cases rest with
      | nil =>
          right
          exact ⟨w, List.mem_cons_self w [], by simpa [joinWords] using hc⟩
      | cons r rs =>
          have hj : joinWords (w :: r :: rs) = w ++ ' ' :: joinWords (r :: rs) := rfl
          rw [hj] at hc
          rcases List.mem_append.mp hc with h | h
          · right; exact ⟨w, List.mem_cons_self w (r :: rs), h⟩
          · rcases List.mem_cons.mp h with h2 | h2
            · left; exact h2
            · rcases ih c h2 with h3 | ⟨w2, hw2, hcw2⟩
              · left; exact h3
              · right; exact ⟨w2, List.mem_cons_of_mem _ hw2, hcw2⟩

/-- C7 (amended): under auto-detect, expansion yields the original query plus —
only when the query contains CJK/kana characters — a second query joining with
spaces the tokens of length at least 2 obtained by splitting at every character
that is neither ASCII alphanumeric nor a hyphen, underscore or period (so
tokens may also contain those three connector characters); only the original
query when no such token exists.  The claim's own example still holds. -/
theorem c7_expand_bilingual_amended :
    (∀ query : String,
      expand_bilingual query
        = if contains_japanese query then
            if ((splitCharsOn token_delim query.toList).filter
                fun w => 2 ≤ w.length).isEmpty then
              [query]
            else
              [query, String.mk (joinWords
                ((splitCharsOn token_delim query.toList).filter
                  fun w => 2 ≤ w.length))]
          else [query])
    ∧ expand_bilingual "型安全 TypeScript" = ["型安全 TypeScript", "TypeScript"] := by
  constructor
  · intro query
    by_cases hj : contains_japanese query = true
    · rw [expand_bilingual, if_pos hj, if_pos hj]
      by_cases he : ((splitCharsOn token_delim query.toList).filter
          fun w => 2 ≤ w.length).isEmpty
      · have heng : to_english_query query = query := by
          rw [to_english_query]
          simp only [he, if_true]
        rw [if_pos he]
        simp [heng]
      · have heng : to_english_query query = String.mk (joinWords
            ((splitCharsOn token_delim query.toList).filter
              fun w => 2 ≤ w.length)) := by
          rw [to_english_query]
          simp only [he]
          rfl
        have hneq : String.mk (joinWords
            ((splitCharsOn token_delim query.toList).filter
              fun w => 2 ≤ w.length)) ≠ query := by
          intro habs
          obtain ⟨cj, hcj, hrange⟩ : ∃ c ∈ query.toList, 0x3040 ≤ c.toNat := by
            simp only [contains_japanese, List.any_eq_true, Bool.or_eq_true,
              decide_eq_true_eq] at hj
            obtain ⟨c, hcmem, hcc⟩ := hj
            exact ⟨c, hcmem, by omega⟩
          have hlist : query.toList = joinWords
              ((splitCharsOn token_delim query.toList).filter
                fun w => 2 ≤ w.length) :=
            congrArg String.toList habs.symm
          rw [hlist] at hcj
          rcases joinWords_mem _ cj hcj with hsp | ⟨w, hw, hcw⟩
          · rw [hsp] at hrange
            have : (' ').toNat = 32 := rfl
            omega
          · have hwmem := List.mem_of_mem_filter hw
            have hdelim := splitCharsOn_sound token_delim query.toList w hwmem cj hcw
            have := token_char_ascii cj hdelim
            omega
        rw [if_neg he]
        have hbeq : ((String.mk (joinWords
            ((splitCharsOn token_delim query.toList).filter
              fun w => 2 ≤ w.length)) : String) == query) = false :=
          beq_eq_false_iff_ne.mpr hneq
        simp only [heng, hbeq]
        rfl
    · rw [expand_bilingual]
      simp [hj]
  · decide

/-- src/gemini/client.rs GeminiError (payloads reduced to message strings). -/
inductive GeminiError where
  | ApiKeyNotSet
  | RateLimited
  | QuotaExhausted (msg : String)
  | Api (code : Nat) (msg : String)
  | Network (msg : String)
deriving DecidableEq, Repr

deriving instance DecidableEq for Prod

/-- src/gemini/types.rs Source: a cited web source. -/
structure Source where
  url : String
  title : String
deriving DecidableEq, Repr

/-- src/gemini/types.rs GroundedResult. -/
structure GroundedResult where
  answer : Option String
  sources : List Source
deriving DecidableEq, Repr

/-- src/search/lang.rs Lang. -/
inductive Lang where
  | Ja
  | En
  | Auto
deriving DecidableEq, Repr

/-- src/search/lang.rs Lang::apply_to_query. -/
def Lang.apply_to_query : Lang → String → String
  | .Ja, q => q ++ " (日本語で回答)"
  | .En, q => q ++ " (answer in English)"
  | .Auto, q => q

/-- src/search/engine.rs FailedUrl. -/
structure FailedUrl where
  url : String
  reason : String
deriving DecidableEq, Repr

/-- src/search/engine.rs ResearchReport. -/
structure ResearchReport where
  search_results : List GroundedResult
  fetched_pages : List FetchResult
  failed_urls : List FailedUrl
  all_sources : List Source
deriving DecidableEq, Repr

/-- src/search/engine.rs ResearchRequest. -/
structure ResearchRequest where
  query : String
  depth : Nat
  lang : Lang

/-- The error component of a search outcome (Result::err). -/
def exceptError? : Except GeminiError GroundedResult → Option GeminiError
  | .error e => some e
  | .ok _ => none

/-- src/search/engine.rs run_searches: dispatch every query (join_all keeps
launch order), partition outcomes; if no success, fail with the first error
(RateLimited as the unreachable fallback of unwrap_or), else keep successes. -/
def run_searches (gemini : String → Except GeminiError GroundedResult)
    (queries : List String) : Except GeminiError (List GroundedResult) :=
  let outcomes := queries.map gemini
  let part := outcomes.partition fun r => r.isOk
  if part.1.isEmpty then
    .error ((part.2.findSome? exceptError?).getD .RateLimited)
  else
    .ok (part.1.filterMap fun r => r.toOption)

/-- The seen-set loop body of collect_unique_sources, with the HashSet of
already-kept URLs as a list consulted only through membership. -/
def collect_sources_aux : List Source → List String → List Source
  | [], _ => []
  | s :: rest, seen =>
      if s.url ≠ "" ∧ s.url ∉ seen then
        s :: collect_sources_aux rest (s.url :: seen)
      else
        collect_sources_aux rest seen

/-- src/search/engine.rs collect_unique_sources: walk results in order, then
each result's sources in order, keeping the first occurrence of every
non-empty URL. -/
def collect_unique_sources (results : List GroundedResult) : List Source :=
  collect_sources_aux (results.flatMap fun r => r.sources) []

/-- The expanded queries of a research request (the queries binding at the top
of engine.rs research). -/
def research_queries (req : ResearchRequest) : List String :=
  match req.lang with
  | .Auto => expand_bilingual req.query
  | _ => [req.lang.apply_to_query req.query]

/-- src/search/engine.rs research.  The bounded-concurrency fetch fan-out
(fetch_sources, whose buffered awaiting and per-item timeout live in the
excluded async layer) is an oracle from the selected URLs to the fetched
pages and failed URLs. -/
def research (gemini : String → Except GeminiError GroundedResult)
    (fetcher : List String → List FetchResult × List FailedUrl)
    (req : ResearchRequest) : Except GeminiError ResearchReport :=
  match run_searches gemini (research_queries req) with
  | .error e => .error e
  | .ok search_results =>
      let all_sources := collect_unique_sources search_results
      let urls := (all_sources.take req.depth).map fun s => s.url
      let fetched := fetcher urls
      .ok ⟨search_results, fetched.1, fetched.2, all_sources⟩

/-- Modelled from the claim wording: walk the concatenated sources in order
and keep a source iff its URL is non-empty and no already-kept source has the
same URL. -/
def c5_claim_first_occurrence (flat : List Source) : List Source :=
  flat.foldl
    (fun acc s =>
      if !(s.url == "") && acc.all (fun t => !(t.url == s.url)) then
        acc ++ [s]
      else
        acc)
    []

theorem collect_sources_aux_foldl (flat : List Source) :
    ∀ (seen : List String) (acc : List Source),
    (∀ u, u ∈ seen ↔ ∃ t ∈ acc, t.url = u) →
    acc ++ collect_sources_aux flat seen
      = flat.foldl
          (fun acc s =>
            if !(s.url == "") && acc.all (fun t => !(t.url == s.url)) then
              acc ++ [s]
            else
              acc)
          acc := by
  induction flat with
  | nil => intro seen acc _; simp [collect_sources_aux]
  | cons s rest ih =>
      intro seen acc hinv
      simp only [collect_sources_aux, List.foldl_cons]
      by_cases hc : s.url ≠ "" ∧ s.url ∉ seen
      · rw [if_pos hc]
        have hcb : (!(s.url == "") && acc.all fun t => !(t.url == s.url)) = true := by
          simp only [Bool.and_eq_true, Bool.not_eq_true', beq_eq_false_iff_ne,
            List.all_eq_true]
          refine ⟨hc.1, fun t ht => ?_⟩
          intro habs
          exact hc.2 ((hinv s.url).mpr ⟨t, ht, habs⟩)
        rw [hcb, if_pos rfl]
        have hinv2 : ∀ u, u ∈ s.url :: seen ↔ ∃ t ∈ acc ++ [s], t.url = u := by
          intro u
          constructor
          · intro h
            rcases List.mem_cons.mp h with h | h
            · exact ⟨s, by simp, h.symm⟩
            · obtain ⟨t, ht, htu⟩ := (hinv u).mp h
              exact ⟨t, by simp [ht], htu⟩
          · rintro ⟨t, ht, htu⟩
            rcases List.mem_append.mp ht with h1 | h1
            · exact List.mem_cons_of_mem _ ((hinv u).mpr ⟨t, h1, htu⟩)
            · have ht2 : t = s := by simpa using h1
              subst ht2
              rw [← htu]
              exact List.mem_cons_self _ _
        have := ih (s.url :: seen) (acc ++ [s]) hinv2
        rw [← this]
        simp
      · rw [if_neg hc]
        have hcb : (!(s.url == "") && acc.all fun t => !(t.url == s.url)) = false := by
          simp only [Bool.and_eq_false_iff, Bool.not_eq_false', beq_iff_eq,
            Bool.not_eq_true, List.all_eq_false, Bool.not_eq_true',
            beq_eq_false_iff_ne]
          by_cases h1 : s.url = ""
          · exact Or.inl (by simp [h1])
          · have h2 : s.url ∈ seen := by
              by_contra h2
              exact hc ⟨h1, h2⟩
            obtain ⟨t, ht, htu⟩ := (hinv s.url).mp h2
            exact Or.inr ⟨t, ht, by simp [htu]⟩
        rw [hcb]
        simp only [Bool.false_eq_true, if_false]
        exact ih seen acc hinv

/-- C5: the report's source list is the first-occurrence deduplication (per the
claim's walk) of all sources of the successful results in order, and research
hands the fetcher exactly the first depth deduplicated URLs — at most depth
fetches — while reporting the full deduplicated list regardless of depth. -/
theorem c5_sources_dedup_and_depth :
    (∀ results : List GroundedResult,
      collect_unique_sources results
        = c5_claim_first_occurrence (results.flatMap fun r => r.sources))
    ∧ (∀ (gemini : String → Except GeminiError GroundedResult)
        (fetcher : List String → List FetchResult × List FailedUrl)
        (req : ResearchRequest) (results : List GroundedResult),
        run_searches gemini (research_queries req) = .ok results →
        research gemini fetcher req
          = .ok ⟨results,
              (fetcher (((collect_unique_sources results).take req.depth).map
                fun s => s.url)).1,
              (fetcher (((collect_unique_sources results).take req.depth).map
                fun s => s.url)).2,
              collect_unique_sources results⟩
          ∧ (((collect_unique_sources results).take req.depth).map
              fun s => s.url).length ≤ req.depth) := by
  constructor
  · intro results
    have h := collect_sources_aux_foldl (results.flatMap fun r => r.sources) [] []
      (by intro u; simp)
    simpa [collect_unique_sources, c5_claim_first_occurrence] using h
  · intro gemini fetcher req results h
    constructor
    · unfold research
      rw [h]
    · rw [List.length_map, List.length_take]
      omega

/-- C5 witness: five candidate sources with depth 3 — the fetcher receives
three URLs while all five sources appear in the report. -/
theorem c5_sources_dedup_and_depth_witness :
    research (fun _ => .ok ⟨some "a", [⟨"u1", "t1"⟩, ⟨"u2", "t2"⟩, ⟨"u3", "t3"⟩,
          ⟨"u4", "t4"⟩, ⟨"u5", "t5"⟩]⟩)
        (fun urls => ([], urls.map fun u => ⟨u, "skipped"⟩)) ⟨"q", 3, .En⟩
      = .ok ⟨[⟨some "a", [⟨"u1", "t1"⟩, ⟨"u2", "t2"⟩, ⟨"u3", "t3"⟩, ⟨"u4", "t4"⟩,
            ⟨"u5", "t5"⟩]⟩],
          [], [⟨"u1", "skipped"⟩, ⟨"u2", "skipped"⟩, ⟨"u3", "skipped"⟩],
          [⟨"u1", "t1"⟩, ⟨"u2", "t2"⟩, ⟨"u3", "t3"⟩, ⟨"u4", "t4"⟩, ⟨"u5", "t5"⟩]⟩ := by
  have h := (c5_sources_dedup_and_depth.2
    (fun _ => .ok ⟨some "a", [⟨"u1", "t1"⟩, ⟨"u2", "t2"⟩, ⟨"u3", "t3"⟩,
      ⟨"u4", "t4"⟩, ⟨"u5", "t5"⟩]⟩)
    (fun urls => ([], urls.map fun u => ⟨u, "skipped"⟩)) ⟨"q", 3, .En⟩
    [⟨some "a", [⟨"u1", "t1"⟩, ⟨"u2", "t2"⟩, ⟨"u3", "t3"⟩, ⟨"u4", "t4"⟩,
      ⟨"u5", "t5"⟩]⟩] rfl).1
  rw [h]
  rfl

theorem filterMap_toOption_filter_isOk
    (l : List (Except GeminiError GroundedResult)) :
    (l.filter fun r => r.isOk).filterMap (fun r => r.toOption)
      = l.filterMap fun r => r.toOption := by
  induction l with
  | nil => rfl
  | cons a l ih =>
      cases a with
      | ok g =>
          simp only [List.filter_cons, List.filterMap_cons]
          have h1 : (Except.ok g : Except GeminiError GroundedResult).isOk = true := rfl
          have h2 : (Except.ok g : Except GeminiError GroundedResult).toOption
              = some g := rfl
          rw [h1, if_pos rfl]
          simp only [List.filterMap_cons, h2, ih]
      | error e =>
          simp only [List.filter_cons, List.filterMap_cons]
          have h1 : (Except.error e : Except GeminiError GroundedResult).isOk
              = false := rfl
          have h2 : (Except.error e : Except GeminiError GroundedResult).toOption
              = none := rfl
          rw [h1]
          simp only [Bool.false_eq_true, if_false, h2, ih]

/-- C6: when every search outcome is an error, run_searches returns the error
of the first query (the first error encountered in launch order) and research
propagates it with no report; when at least one query succeeds, run_searches
returns exactly the successful results in order, discarding the failures. -/
theorem c6_all_fail_or_successes :
    (∀ (gemini : String → Except GeminiError GroundedResult)
        (q0 : String) (qs : List String) (e : GeminiError),
      gemini q0 = .error e →
      (∀ q ∈ q0 :: qs, (gemini q).isOk = false) →
      run_searches gemini (q0 :: qs) = .error e)
    ∧ (∀ (gemini : String → Except GeminiError GroundedResult)
        (queries : List String) (q : String) (g : GroundedResult),
        q ∈ queries → gemini q = .ok g →
        run_searches gemini queries
          = .ok ((queries.map gemini).filterMap fun r => r.toOption))
    ∧ (∀ (gemini : String → Except GeminiError GroundedResult)
        (fetcher : List String → List FetchResult × List FailedUrl)
        (req : ResearchRequest) (e : GeminiError),
        run_searches gemini (research_queries req) = .error e →
        research gemini fetcher req = .error e) := by
  refine ⟨?_, ?_, ?_⟩
  · intro gemini q0 qs e h0 hall
    simp only [run_searches, List.partition_eq_filter_filter]
    have hs : ((q0 :: qs).map gemini).filter (fun r => r.isOk) = [] := by
      rw [List.filter_eq_nil_iff]
      intro r hr
      obtain ⟨q, hq, hrq⟩ := List.mem_map.mp hr
      rw [← hrq]
      simp [hall q hq]
    have hf : ((q0 :: qs).map gemini).filter (not ∘ fun r => r.isOk)
        = (q0 :: qs).map gemini := by
      rw [List.filter_eq_self]
      intro r hr
      obtain ⟨q, hq, hrq⟩ := List.mem_map.mp hr
      rw [← hrq]
      simp [hall q hq]
    rw [hs, hf]
    simp only [List.isEmpty_nil, if_true, List.map_cons, List.findSome?_cons, h0]
    rfl
  · intro gemini queries q g hq hg
    simp only [run_searches, List.partition_eq_filter_filter]
    have hmem : (Except.ok g : Except GeminiError GroundedResult)
        ∈ (queries.map gemini).filter (fun r => r.isOk) := by
      apply List.mem_filter.mpr
      exact ⟨List.mem_map.mpr ⟨q, hq, hg⟩, rfl⟩
    have hne : ¬((queries.map gemini).filter fun r => r.isOk).isEmpty = true := by
      intro habs
      rw [List.isEmpty_iff] at habs
      rw [habs] at hmem
      simp at hmem
    rw [if_neg hne, filterMap_toOption_filter_isOk]
  · intro gemini fetcher req e h
    unfold research
    rw [h]

/-- C6 witness: with two queries both failing, the first query's RateLimited
error is returned (not the second's), and research propagates it. -/
theorem c6_all_fail_or_successes_witness :
    run_searches
        (fun q => if q == "a" then .error .RateLimited
          else .error (.QuotaExhausted "gone"))
        ["a", "b"]
      = .error .RateLimited
    ∧ research
        (fun _ => .error (.Api 503 "down"))
        (fun _ => ([], []))
        ⟨"q", 3, .En⟩
      = .error (.Api 503 "down") := by
  constructor
  · exact c6_all_fail_or_successes.1
      (fun q => if q == "a" then .error .RateLimited
        else .error (.QuotaExhausted "gone"))
      "a" ["b"] .RateLimited rfl (by decide)
  · exact c6_all_fail_or_successes.2.2 _ _ ⟨"q", 3, .En⟩ (.Api 503 "down")
      (c6_all_fail_or_successes.1 _ "q (answer in English)" [] (.Api 503 "down")
        rfl (by intro q _; rfl))

/-- src/gemini/client.rs MAX_RETRIES. -/
def MAX_RETRIES : Nat := 3

/-- src/gemini/client.rs INITIAL_BACKOFF_MS. -/
def INITIAL_BACKOFF_MS : Nat := 1000

/-- src/gemini/client.rs is_retriable: rate limit or 5xx API error. -/
def is_retriable : GeminiError → Bool
  | .RateLimited => true
  | .Api code _ => decide (500 ≤ code ∧ code ≤ 599)
  | _ => false

/-- src/gemini/client.rs jittered_backoff: equal jitter, base/2 plus a random
draw below base/2.  The RNG draw fastrand::u64(..n), uniform on [0, n), is
modelled as r % n for an oracle value r. -/
def jittered_backoff (attempt r : Nat) : Nat :=
  let base := INITIAL_BACKOFF_MS * 2 ^ attempt
  let half := base / 2
  half + r % (max half 1)

/-- The retry loop of SearchClient::search for GeminiClient, instrumented with
the number of generate_with_search calls made and the list of backoff sleeps
performed.  gen gives the outcome of the call at each attempt index, extract
is extract_grounded_result, rand the RNG oracle; the second argument is the
number of loop iterations remaining (MAX_RETRIES at entry), the third the last
retriable error seen. -/
def search_loop {ρ : Type} (gen : Nat → Except GeminiError ρ)
    (extract : ρ → GroundedResult) (rand : Nat → Nat) :
    Nat → Nat → Option GeminiError →
      Nat × List Nat × Except GeminiError GroundedResult
  | _, 0, lastErr => (0, [], .error (lastErr.getD .RateLimited))
  | attempt, n + 1, lastErr =>
      match gen attempt with
      | .ok resp => (1, [], .ok (extract resp))
      | .error e =>
          if is_retriable e then
            let res := search_loop gen extract rand (attempt + 1) n (some e)
            (res.1 + 1,
              (if attempt + 1 < MAX_RETRIES then
                [jittered_backoff attempt (rand attempt)]
              else []) ++ res.2.1,
              res.2.2)
          else
            (1, [], .error e)

/-- src/gemini/client.rs SearchClient::search for GeminiClient. -/
def gemini_search {ρ : Type} (gen : Nat → Except GeminiError ρ)
    (extract : ρ → GroundedResult) (rand : Nat → Nat) :
    Nat × List Nat × Except GeminiError GroundedResult :=
  search_loop gen extract rand 0 MAX_RETRIES none

theorem gemini_search_eq {ρ : Type} (gen : Nat → Except GeminiError ρ)
    (extract : ρ → GroundedResult) (rand : Nat → Nat) :
    gemini_search gen extract rand
      = match gen 0 with
        | .ok r => (1, [], .ok (extract r))
        | .error e0 =>
            if is_retriable e0 then
              match gen 1 with
              | .ok r => (2, [jittered_backoff 0 (rand 0)], .ok (extract r))
              | .error e1 =>
                  if is_retriable e1 then
                    match gen 2 with
                    | .ok r => (3, [jittered_backoff 0 (rand 0),
                        jittered_backoff 1 (rand 1)], .ok (extract r))
                    | .error e2 => (3, [jittered_backoff 0 (rand 0),
                        jittered_backoff 1 (rand 1)], .error e2)
                  else
                    (2, [jittered_backoff 0 (rand 0)], .error e1)
            else
              (1, [], .error e0) := by
  cases h0 : gen 0 with
  | ok r => simp [gemini_search, search_loop, MAX_RETRIES, h0]
  | error e0 =>
      by_cases hr0 : is_retriable e0 = true
      · cases h1 : gen 1 with
        | ok r => simp [gemini_search, search_loop, MAX_RETRIES, h0, hr0, h1]
        | error e1 =>
            by_cases hr1 : is_retriable e1 = true
            · cases h2 : gen 2 with
              | ok r =>
                  simp [gemini_search, search_loop, MAX_RETRIES, h0, hr0, h1,
                    hr1, h2]
              | error e2 =>
                  by_cases hr2 : is_retriable e2 = true
                  · simp [gemini_search, search_loop, MAX_RETRIES, h0, hr0, h1,
                      hr1, h2, hr2]
                  · simp [gemini_search, search_loop, MAX_RETRIES, h0, hr0, h1,
                      hr1, h2, hr2]
            · simp [gemini_search, search_loop, MAX_RETRIES, h0, hr0, h1, hr1]
      · simp [gemini_search, search_loop, MAX_RETRIES, h0, hr0]

theorem jittered_backoff_bounds (a r : Nat) :
    500 * 2 ^ a ≤ jittered_backoff a r ∧ jittered_backoff a r < 1000 * 2 ^ a := by
  have hpow : 1 ≤ 2 ^ a := Nat.one_le_two_pow
  simp only [jittered_backoff, INITIAL_BACKOFF_MS]
  have hhalf : 1000 * 2 ^ a / 2 = 500 * 2 ^ a := by omega
  rw [hhalf]
  have hmax : max (500 * 2 ^ a) 1 = 500 * 2 ^ a := max_eq_left (by omega)
  rw [hmax]
  have hm : r % (500 * 2 ^ a) < 500 * 2 ^ a := Nat.mod_lt _ (by omega)
  omega

/-- C8: the search retry loop makes at most 3 calls; a first-call success or a
non-retriable first-call error returns immediately with no sleep; a second or
third call happens only after a retriable error on the previous call; the
sleeps are exactly the equal-jitter backoffs of the completed attempts, each
lying in [half, base) for the exponential base 1000*2^attempt ms. -/
theorem c8_search_retry_policy {ρ : Type} (gen : Nat → Except GeminiError ρ)
    (extract : ρ → GroundedResult) (rand : Nat → Nat) :
    (gemini_search gen extract rand).1 ≤ 3
    ∧ (∀ e, gen 0 = .error e → is_retriable e = false →
        gemini_search gen extract rand = (1, [], .error e))
    ∧ (∀ r, gen 0 = .ok r →
        gemini_search gen extract rand = (1, [], .ok (extract r)))
    ∧ (2 ≤ (gemini_search gen extract rand).1 →
        ∃ e, gen 0 = .error e ∧ is_retriable e = true)
    ∧ ((gemini_search gen extract rand).1 = 3 →
        ∃ e, gen 1 = .error e ∧ is_retriable e = true)
    ∧ (gemini_search gen extract rand).2.1
        = (List.range ((gemini_search gen extract rand).1 - 1)).map
            (fun a => jittered_backoff a (rand a))
    ∧ (∀ a r, 500 * 2 ^ a ≤ jittered_backoff a r
        ∧ jittered_backoff a r < 1000 * 2 ^ a) := by
  have hjb := jittered_backoff_bounds
  cases h0 : gen 0 with
  | ok r =>
      have heq : gemini_search gen extract rand = (1, [], .ok (extract r)) := by
        simp [gemini_search, search_loop, MAX_RETRIES, h0]
      rw [heq]
      refine ⟨by norm_num, ?_, ?_, ?_, ?_, rfl, hjb⟩
      · intro e he _
        exact absurd he (by simp)
      · intro r2 hr2
        injection hr2 with h
        subst h
        rfl
      · intro habs
        exact absurd habs (by norm_num)
      · intro habs
        exact absurd habs (by norm_num)
  | error e0 =>
      by_cases hr0 : is_retriable e0 = true
      · cases h1 : gen 1 with
        | ok r =>
            have heq : gemini_search gen extract rand
                = (2, [jittered_backoff 0 (rand 0)], .ok (extract r)) := by
              simp [gemini_search, search_loop, MAX_RETRIES, h0, hr0, h1]
            rw [heq]
            refine ⟨by norm_num, ?_, ?_, ?_, ?_, rfl, hjb⟩
            · intro e he hnr
              injection he with h
              subst h
              rw [hr0] at hnr
              exact absurd hnr (by simp)
            · intro r2 hr2
              exact absurd hr2 (by simp)
            · intro _
              exact ⟨e0, rfl, hr0⟩
            · intro habs
              exact absurd habs (by norm_num)
        | error e1 =>
            by_cases hr1 : is_retriable e1 = true
            · have heq : gemini_search gen extract rand
                  = (3, [jittered_backoff 0 (rand 0), jittered_backoff 1 (rand 1)],
                    (match gen 2 with
                      | .ok r => Except.ok (extract r)
                      | .error e2 => Except.error e2)) := by
                cases h2 : gen 2 with
                | ok r => simp [gemini_search, search_loop, MAX_RETRIES, h0, hr0, h1, hr1, h2]
                | error e2 =>
                    by_cases hr2 : is_retriable e2 = true
                    · simp [gemini_search, search_loop, MAX_RETRIES, h0, hr0, h1, hr1,
                        h2, hr2]
                    · simp [gemini_search, search_loop, MAX_RETRIES, h0, hr0, h1, hr1,
                        h2, hr2]
              rw [heq]
              refine ⟨by norm_num, ?_, ?_, ?_, ?_, rfl, hjb⟩
              · intro e he hnr
                injection he with h
                subst h
                rw [hr0] at hnr
                exact absurd hnr (by simp)
              · intro r2 hr2
                exact absurd hr2 (by simp)
              · intro _
                exact ⟨e0, rfl, hr0⟩
              · intro _
                exact ⟨e1, rfl, hr1⟩
            · have heq : gemini_search gen extract rand
                  = (2, [jittered_backoff 0 (rand 0)], .error e1) := by
                simp [gemini_search, search_loop, MAX_RETRIES, h0, hr0, h1, hr1]
              rw [heq]
              refine ⟨by norm_num, ?_, ?_, ?_, ?_, rfl, hjb⟩
              · intro e he hnr
                injection he with h
                subst h
                rw [hr0] at hnr
                exact absurd hnr (by simp)
              · intro r2 hr2
                exact absurd hr2 (by simp)
              · intro _
                exact ⟨e0, rfl, hr0⟩
              · intro habs
                exact absurd habs (by norm_num)
      · have heq : gemini_search gen extract rand = (1, [], .error e0) := by
          simp [gemini_search, search_loop, MAX_RETRIES, h0, hr0]
        rw [heq]
        refine ⟨by norm_num, ?_, ?_, ?_, ?_, rfl, hjb⟩
        · intro e he _
          injection he with h
          subst h
          rfl
        · intro r2 hr2
          exact absurd hr2 (by simp)
        · intro habs
          exact absurd habs (by norm_num)
        · intro habs
          exact absurd habs (by norm_num)

/-- C8 witness: a rate-limited first call followed by a success retries once
with one sleep, and a quota error is returned immediately without retry. -/
theorem c8_search_retry_policy_witness :
    gemini_search
        (fun a => if a == 0 then .error .RateLimited
          else .ok (⟨some "late", []⟩ : GroundedResult))
        id (fun _ => 7)
      = (2, [jittered_backoff 0 7], .ok ⟨some "late", []⟩)
    ∧ gemini_search (fun _ => (.error (.QuotaExhausted "gone") :
          Except GeminiError GroundedResult))
        id (fun _ => 7)
      = (1, [], .error (.QuotaExhausted "gone")) := by
  constructor
  · rw [gemini_search_eq]
    rfl
  · exact (c8_search_retry_policy (fun _ => (.error (.QuotaExhausted "gone") :
        Except GeminiError GroundedResult)) id (fun _ => 7)).2.1
      (.QuotaExhausted "gone") rfl rfl

/-- src/tools/params.rs ResearchParams: the research tool's caller-supplied
parameters (depth is Option<u8>). -/
structure ResearchParams where
  query : String
  depth : Option Nat
  lang : Option Lang
deriving DecidableEq, Repr

/-- Rust Ord::clamp on integers: min if below, max if above, else itself. -/
def clamp (x lo hi : Nat) : Nat :=
  if x < lo then lo else if hi < x then hi else x

/-- The parameter validation prelude of src/tools/mod.rs Scout::research: an
empty query is rejected; otherwise the orchestrator is invoked with depth
params.depth.unwrap_or(3).clamp(1, 10) and lang params.lang.unwrap_or_default()
(the Lang default is Auto). -/
def scout_research_prepare (p : ResearchParams) : Except String (Nat × Lang) :=
  if p.query = "" then
    .error "query must not be empty"
  else
    .ok (clamp (p.depth.getD 3) 1 10, p.lang.getD .Auto)

/-- C10: for a non-empty query, the research tool never rejects a
caller-supplied depth: it always invokes the orchestrator, with depth 3 when
depth is omitted, depth 1 when the supplied u8 is below 1, depth 10 when it is
above 10, the supplied value when it is already in range — hence always a
depth in 1..=10. -/
theorem c10_depth_clamped (p : ResearchParams) (hq : p.query ≠ "")
    (hu8 : ∀ x ∈ p.depth, x ≤ 255) :
    ∃ d lg, scout_research_prepare p = .ok (d, lg)
      ∧ 1 ≤ d ∧ d ≤ 10
      ∧ (p.depth = none → d = 3)
      ∧ (∀ x, p.depth = some x → x < 1 → d = 1)
      ∧ (∀ x, p.depth = some x → 10 < x → d = 10)
      ∧ (∀ x, p.depth = some x → 1 ≤ x → x ≤ 10 → d = x) := by
  refine ⟨clamp (p.depth.getD 3) 1 10, p.lang.getD .Auto, ?_, ?_, ?_, ?_, ?_, ?_, ?_⟩
  · unfold scout_research_prepare
    rw [if_neg hq]
  · unfold clamp
    split_ifs <;> omega
  · unfold clamp
    split_ifs <;> omega
  · intro hnone
    rw [hnone]
    rfl
  · intro x hx hlt
    rw [hx]
    unfold clamp
    simp only [Option.getD_some]
    rw [if_pos (by omega : x < 1)]
  · intro x hx hgt
    rw [hx]
    unfold clamp
    simp only [Option.getD_some]
    rw [if_neg (by omega : ¬ x < 1), if_pos (by omega : 10 < x)]
  · intro x hx h1 h10
    rw [hx]
    unfold clamp
    simp only [Option.getD_some]
    rw [if_neg (by omega : ¬ x < 1), if_neg (by omega : ¬ 10 < x)]

/-- C10 witness: a supplied depth of 0 with a non-empty query is accepted and
raised to 1. -/
theorem c10_depth_clamped_witness :
    (⟨"rust", some 0, none⟩ : ResearchParams).query ≠ ""
      ∧ scout_research_prepare ⟨"rust", some 0, none⟩ = .ok (1, .Auto) := by
  refine ⟨by decide, ?_⟩
  obtain ⟨d, lg, hok, _, _, _, h0, _, _⟩ :=
    c10_depth_clamped ⟨"rust", some 0, none⟩ (by decide) (by simp)
  have hd : d = 1 := h0 0 rfl (by omega)
  subst hd
  have hlg : lg = Lang.Auto := by
    have : scout_research_prepare ⟨"rust", some 0, none⟩
        = .ok (1, Lang.Auto) := rfl
    rw [this] at hok
    injection hok with h
    exact (Prod.mk.injEq .. ▸ h).2.symm ▸ rfl
  subst hlg
  exact hok
